import Mathlib

/-!
Formal model of the DMI tool suite in `src/dmi.rs` (rust-g): a shallow
embedding of the pixel-stream parser and PNG builder (`create_png`), the
metadata stripper (`strip_metadata` / `write_png`), the resizer
(`dmi_resize_png` / `resize_png`) and the icon-state extractor
(`read_states`), together with theorems settling the specification claims.

Rust strings are embedded as `List Char` (Unicode scalar values) where the
code works on `&str` characters, and as `List Nat` (byte values `< 256`)
where the code works on `as_bytes()` byte slices. Fallible operations
return `Except Error`.
-/

/-- Error values distinguished by the code. The crate's `error.rs` is not
part of the provided sources, so the variants are modelled from the spec's
error taxonomy (§7): `invalidPngData` is the `FormatError` raised by the
wrong-segment-length check, `parseIntError` covers non-numeric
width/height and failed hex parsing, `utf8Error` a 2-byte group that is
not valid UTF-8, `ioError` filesystem failures and `encodeError` a
rejection by the external PNG encoder. -/
inductive Error
  | invalidPngData
  | parseIntError
  | utf8Error
  | ioError
  | encodeError
deriving DecidableEq, Repr

/-- Boolean discriminator for failed `Except` computations. -/
def isErr {ε α : Type} : Except ε α → Bool
  | .error _ => true
  | .ok _ => false

deriving instance DecidableEq for Except

/-- `slice::split(pred)` for a single separator element: subslices
separated by `sep`, separator dropped; an empty slice yields one empty
subslice, and `n` separators yield `n + 1` subslices. -/
def splitOnElem {α : Type} [DecidableEq α] (sep : α) : List α → List (List α)
  | [] => [[]]
  | c :: cs =>
    if c = sep then [] :: splitOnElem sep cs
    else
      match splitOnElem sep cs with
      | [] => [[c]]
      | l :: ls => (c :: l) :: ls

/-- A UTF-8 continuation byte (`0x80..=0xBF`). -/
def utf8Cont (b : Nat) : Bool := decide (0x80 ≤ b) && decide (b ≤ 0xBF)

/-- State machine for the UTF-8 validation performed by
`std::str::from_utf8`, one byte at a time: `need` is the number of
continuation bytes still expected (0 at a character boundary), and while
`need > 0` the next byte must lie in `lo..hi`; after the first
continuation byte of a sequence the allowed range is always
`0x80..0xBF`. The lead-byte table excludes overlong encodings (`C0 C1`,
`E0 80..9F`, `F0 80..8F`), surrogates (`ED A0..BF`) and code points above
`U+10FFFF` (`F4 90..`, `F5..FF`). -/
def validUtf8From (need lo hi : Nat) : List Nat → Bool
  | [] => need = 0
  | b :: rest =>
    if need = 0 then
      if b ≤ 0x7F then validUtf8From 0 0 0 rest
      else if 0xC2 ≤ b ∧ b ≤ 0xDF then validUtf8From 1 0x80 0xBF rest
      else if b = 0xE0 then validUtf8From 2 0xA0 0xBF rest
      else if 0xE1 ≤ b ∧ b ≤ 0xEC then validUtf8From 2 0x80 0xBF rest
      else if b = 0xED then validUtf8From 2 0x80 0x9F rest
      else if 0xEE ≤ b ∧ b ≤ 0xEF then validUtf8From 2 0x80 0xBF rest
      else if b = 0xF0 then validUtf8From 3 0x90 0xBF rest
      else if 0xF1 ≤ b ∧ b ≤ 0xF3 then validUtf8From 3 0x80 0xBF rest
      else if b = 0xF4 then validUtf8From 3 0x80 0x8F rest
      else false
    else if lo ≤ b ∧ b ≤ hi then validUtf8From (need - 1) 0x80 0xBF rest
    else false

/-- Validity of a byte sequence as UTF-8, as checked by
`std::str::from_utf8`: starting (and ending) at a character boundary. -/
def validUtf8 (l : List Nat) : Bool := validUtf8From 0 0 0 l

/-- An ASCII hexadecimal digit byte (`0-9`, `a-f`, `A-F`). -/
def isHexDigitByte (b : Nat) : Bool :=
  (48 ≤ b ∧ b ≤ 57) ∨ (97 ≤ b ∧ b ≤ 102) ∨ (65 ≤ b ∧ b ≤ 70)

/-- Numeric value of an ASCII hexadecimal digit byte. -/
def hexVal (b : Nat) : Nat :=
  if b ≤ 57 then b - 48 else if b ≤ 70 then b - 55 else b - 87

/-- `u8::from_str_radix(s, 16)` on the bytes of a `&str`: an optional
leading `+` sign (a leading `-` is not accepted for an unsigned type),
then at least one hexadecimal digit, and the value must fit in a `u8`. -/
def fromStrRadix16 (s : List Nat) : Except Error Nat :=
  let ds := match s with
    | b :: rest => if b = 43 then rest else s
    | [] => s
  if ds.isEmpty then .error .parseIntError
  else if ds.all isHexDigitByte then
    let v := ds.foldl (fun acc b => acc * 16 + hexVal b) 0
    if v < 256 then .ok v else .error .parseIntError
  else .error .parseIntError

/-- One 2-byte group of a pixel segment:
`u8::from_str_radix(std::str::from_utf8(channel)?, 16)?`. -/
def parseHexPair (a b : Nat) : Except Error Nat :=
  if validUtf8 [a, b] then fromStrRadix16 [a, b] else .error .utf8Error

/-- The inner channel loop of `create_png`:
`for channel in pixel.chunks_exact(2) { result.push(...) }`, with the
early `?` return on the first failing group (a trailing byte that does
not fill a chunk is ignored by `chunks_exact`). -/
def parsePairs : List Nat → Except Error (List Nat)
  | a :: b :: rest =>
    match parseHexPair a b with
    | .error e => .error e
    | .ok v =>
      match parsePairs rest with
      | .error e => .error e
      | .ok vs => .ok (v :: vs)
  | _ => .ok []

/-- One `#`-delimited pixel segment of `create_png`: the length must be 6
or 8, each 2-byte group parses as a hex byte, and a 6-byte segment gets an
implicit alpha byte of 255. -/
def parseSeg (seg : List Nat) : Except Error (List Nat) :=
  if seg.length ≠ 6 ∧ seg.length ≠ 8 then .error .invalidPngData
  else
    match parsePairs seg with
    | .error e => .error e
    | .ok vs => .ok (vs ++ if seg.length = 6 then [255] else [])

/-- The segment loop of `create_png`: segments processed in order, their
bytes accumulated into one buffer, the first error aborting the whole
parse with no partial output. -/
def parseSegs : List (List Nat) → Except Error (List Nat)
  | [] => .ok []
  | s :: rest =>
    match parseSeg s with
    | .error e => .error e
    | .ok px =>
      match parseSegs rest with
      | .error e => .error e
      | .ok r => .ok (px ++ r)

/-- The pixel-stream parse of `create_png`:
`bytes.split(|&b| b == b'#').skip(1)` (byte 35 is `#`) followed by the
segment loop. -/
def parsePixelStream (data : List Nat) : Except Error (List Nat) :=
  parseSegs ((splitOnElem 35 data).drop 1)

/-- Spec-side value of one 2-digit hex group. -/
def hexPairVal (a b : Nat) : Nat := hexVal a * 16 + hexVal b

/-- Spec-side list of channel values of a segment: consecutive 2-byte
groups, each read as a hex byte. -/
def pairVals : List Nat → List Nat
  | [] => []
  | [_] => []
  | a :: b :: rest => hexPairVal a b :: pairVals rest

/-- Spec-side bytes contributed by one valid token: its 2-character groups
in order, then an implicit alpha of 255 for a 6-digit token. -/
def pixelOfToken (s : List Nat) : List Nat :=
  pairVals s ++ (if s.length = 6 then [255] else [])

/-- The UTF-8 bytes of an ASCII string (every scalar value below 128 is
its own single byte). Used to write byte-level inputs readably. -/
def asciiBytes (s : String) : List Nat := s.data.map Char.toNat

/-- Induction on a list two elements at a time, matching the recursion of
`parsePairs` and `pairVals`. -/
theorem twoStepInduction {α : Type} {P : List α → Prop} (h0 : P [])
    (h1 : ∀ a, P [a]) (h2 : ∀ a b t, P t → P (a :: b :: t)) : ∀ l, P l
  | [] => h0
  | [a] => h1 a
  | a :: b :: t => h2 a b t (twoStepInduction h0 h1 h2 t)

theorem hexDigitByte_le (b : Nat) (h : isHexDigitByte b = true) : b ≤ 0x7F := by
  simp [isHexDigitByte] at h
  omega

theorem hexVal_lt_16 (b : Nat) (h : isHexDigitByte b = true) : hexVal b < 16 := by
  simp [isHexDigitByte] at h
  unfold hexVal
  split
  · omega
  · split <;> omega

theorem hexDigitByte_ne_plus (b : Nat) (h : isHexDigitByte b = true) : b ≠ 43 := by
  simp [isHexDigitByte] at h
  omega

theorem validUtf8_cons_ascii (a : Nat) (l : List Nat) (ha : a ≤ 0x7F) :
    validUtf8 (a :: l) = validUtf8 l := by
  unfold validUtf8
  rw [validUtf8From.eq_def]
  simp only [if_pos ha, if_true, ite_self, if_pos (rfl : (0 : Nat) = 0)]

theorem validUtf8_ascii_pair (a b : Nat) (ha : a ≤ 0x7F) (hb : b ≤ 0x7F) :
    validUtf8 [a, b] = true := by
  rw [validUtf8_cons_ascii a _ ha, validUtf8_cons_ascii b _ hb]
  rfl

theorem parseHexPair_ok (a b : Nat) (ha : isHexDigitByte a = true)
    (hb : isHexDigitByte b = true) : parseHexPair a b = .ok (hexPairVal a b) := by
  unfold parseHexPair
  rw [if_pos (validUtf8_ascii_pair a b (hexDigitByte_le a ha) (hexDigitByte_le b hb))]
  unfold fromStrRadix16
  simp only [if_neg (hexDigitByte_ne_plus a ha)]
  have hlt : hexPairVal a b < 256 := by
    have := hexVal_lt_16 a ha
    have := hexVal_lt_16 b hb
    unfold hexPairVal
    omega
  have harith : hexVal a * 16 + hexVal b = hexPairVal a b := by
    unfold hexPairVal; ring
  simp [List.all_cons, ha, hb, List.foldl, harith, hlt]

theorem parsePairs_ok (l : List Nat) (h : l.all isHexDigitByte = true) :
    parsePairs l = .ok (pairVals l) := by
  induction l using twoStepInduction with
  | h0 => rfl
  | h1 a => rfl
  | h2 a b t ih =>
    simp only [List.all_cons, Bool.and_eq_true] at h
    obtain ⟨ha, hb, ht⟩ := h
    unfold parsePairs pairVals
    rw [parseHexPair_ok a b ha hb, ih ht]

theorem parseSeg_ok (s : List Nat) (hlen : s.length = 6 ∨ s.length = 8)
    (hhex : s.all isHexDigitByte = true) : parseSeg s = .ok (pixelOfToken s) := by
  unfold parseSeg pixelOfToken
  rw [if_neg (by omega), parsePairs_ok s hhex]

theorem pairVals_length (s : List Nat) : (pairVals s).length = s.length / 2 := by
  induction s using twoStepInduction with
  | h0 => rfl
  | h1 a => simp [pairVals]
  | h2 a b t ih => simp [pairVals, ih]; omega

theorem pixelOfToken_length (s : List Nat) (hlen : s.length = 6 ∨ s.length = 8) :
    (pixelOfToken s).length = 4 := by
  unfold pixelOfToken
  rcases hlen with h | h <;> simp [h, pairVals_length]

theorem parseSegs_ok (segs : List (List Nat))
    (h : ∀ s ∈ segs, (s.length = 6 ∨ s.length = 8) ∧ s.all isHexDigitByte = true) :
    parseSegs segs = .ok (segs.flatMap pixelOfToken) := by
  induction segs with
  | nil => rfl
  | cons s rest ih =>
    obtain ⟨hlen, hhex⟩ := h s (List.mem_cons_self s rest)
    unfold parseSegs
    rw [parseSeg_ok s hlen hhex, ih (fun t ht => h t (List.mem_cons_of_mem s ht))]
    simp

theorem flatMap_pixelOfToken_length (segs : List (List Nat))
    (h : ∀ s ∈ segs, s.length = 6 ∨ s.length = 8) :
    (segs.flatMap pixelOfToken).length = 4 * segs.length := by
  induction segs with
  | nil => rfl
  | cons s rest ih =>
    simp only [List.flatMap_cons, List.length_append,
      pixelOfToken_length s (h s (List.mem_cons_self s rest)),
      ih (fun t ht => h t (List.mem_cons_of_mem s ht)), List.length_cons]
    ring

theorem parseSegs_err (segs : List (List Nat))
    (h : ∃ s ∈ segs, isErr (parseSeg s) = true) : isErr (parseSegs segs) = true := by
  induction segs with
  | nil => simp at h
  | cons s rest ih =>
    obtain ⟨t, ht, hterr⟩ := h
    unfold parseSegs
    rcases List.mem_cons.mp ht with rfl | htrest
    · cases heq : parseSeg t with
      | error e => rfl
      | ok v => rw [heq] at hterr; simp [isErr] at hterr
    · cases heq : parseSeg s with
      | error e => rfl
      | ok v =>
        have := ih ⟨t, htrest, hterr⟩
        cases heq2 : parseSegs rest with
        | error e => rfl
        | ok r => rw [heq2] at this; simp [isErr] at this

theorem fromStrRadix16_err (s : List Nat) (e : Error)
    (h : fromStrRadix16 s = .error e) : e = .parseIntError := by
  cases s with
  | nil =>
    simp only [fromStrRadix16] at h
    split_ifs at h <;> simp_all
  | cons b rest =>
    simp only [fromStrRadix16] at h
    split_ifs at h <;> simp_all

theorem parseHexPair_err (a b : Nat) (e : Error) (h : parseHexPair a b = .error e) :
    e = .utf8Error ∨ e = .parseIntError := by
  unfold parseHexPair at h
  split_ifs at h with hv
  · exact Or.inr (fromStrRadix16_err [a, b] e h)
  · simp only [Except.error.injEq] at h
    exact Or.inl h.symm

theorem parsePairs_err (l : List Nat) (e : Error) (h : parsePairs l = .error e) :
    e = .utf8Error ∨ e = .parseIntError := by
  induction l using twoStepInduction with
  | h0 => simp [parsePairs] at h
  | h1 a => simp [parsePairs] at h
  | h2 a b t ih =>
    unfold parsePairs at h
    cases heq : parseHexPair a b with
    | error e2 =>
      rw [heq] at h
      simp only [Except.error.injEq] at h
      subst h
      exact parseHexPair_err a b e2 heq
    | ok v =>
      rw [heq] at h
      cases heq2 : parsePairs t with
      | error e2 =>
        rw [heq2] at h
        simp only [Except.error.injEq] at h
        subst h
        exact ih heq2
      | ok vs => rw [heq2] at h; simp at h

theorem parseSeg_err_classify (s : List Nat) (e : Error)
    (h : parseSeg s = .error e) :
    e = .invalidPngData ∨ e = .utf8Error ∨ e = .parseIntError := by
  unfold parseSeg at h
  by_cases hlen : s.length ≠ 6 ∧ s.length ≠ 8
  · rw [if_pos hlen] at h
    simp only [Except.error.injEq] at h
    exact Or.inl h.symm
  · rw [if_neg hlen] at h
    cases heq : parsePairs s with
    | error e2 =>
      rw [heq] at h
      simp only [Except.error.injEq] at h
      subst h
      exact Or.inr (parsePairs_err s e2 heq)
    | ok vs => rw [heq] at h; simp at h

theorem parseSeg_badlen (s : List Nat) (h : s.length ≠ 6 ∧ s.length ≠ 8) :
    parseSeg s = .error .invalidPngData := by
  unfold parseSeg
  rw [if_pos h]

theorem splitOnElem_ne_nil {α : Type} [DecidableEq α] (sep : α) (l : List α) :
    splitOnElem sep l ≠ [] := by
  cases l with
  | nil => simp [splitOnElem]
  | cons c cs =>
    unfold splitOnElem
    by_cases h : c = sep
    · simp [h]
    · rw [if_neg h]
      cases heq : splitOnElem sep cs <;> simp

theorem splitOnElem_not_mem {α : Type} [DecidableEq α] (sep : α) (l : List α)
    (h : sep ∉ l) : splitOnElem sep l = [l] := by
  induction l with
  | nil => rfl
  | cons c cs ih =>
    have hc : ¬c = sep := fun hc => h (hc ▸ List.mem_cons_self c cs)
    have hcs : sep ∉ cs := fun hm => h (List.mem_cons_of_mem c hm)
    unfold splitOnElem
    rw [if_neg hc, ih hcs]

theorem splitOnElem_cons_ne {α : Type} [DecidableEq α] (sep c : α) (cs : List α)
    (hc : ¬c = sep) (a : List α) (t : List (List α))
    (heq : splitOnElem sep cs = a :: t) :
    splitOnElem sep (c :: cs) = (c :: a) :: t := by
  unfold splitOnElem
  rw [if_neg hc, heq]

theorem splitOnElem_append {α : Type} [DecidableEq α] (sep : α) (pre l : List α)
    (h : sep ∉ pre) :
    splitOnElem sep (pre ++ l)
      = (pre ++ (splitOnElem sep l).headI) :: (splitOnElem sep l).tail := by
  induction pre with
  | nil =>
    cases heq : splitOnElem sep l with
    | nil => exact absurd heq (splitOnElem_ne_nil sep l)
    | cons a t => simp [heq]
  | cons c cs ih =>
    have hc : ¬c = sep := fun hc => h (hc ▸ List.mem_cons_self c cs)
    have hcs : sep ∉ cs := fun hm => h (List.mem_cons_of_mem c hm)
    rw [List.cons_append, splitOnElem_cons_ne sep c (cs ++ l) hc _ _ (ih hcs)]
    simp

/-- C8: in `create_png`, everything before the first `#` in the pixel
stream is discarded regardless of content (`split` makes it the first
element, `skip(1)` drops it), and an input with no `#` at all — the empty
string included — parses successfully to an empty pixel buffer. -/
theorem create_png_discards_before_hash (pre rest : List Nat) (h : 35 ∉ pre) :
    parsePixelStream pre = .ok []
  ∧ parsePixelStream (pre ++ 35 :: rest) = parsePixelStream (35 :: rest) := by
  constructor
  · unfold parsePixelStream
    rw [splitOnElem_not_mem 35 pre h]
    rfl
  · unfold parsePixelStream
    rw [splitOnElem_append 35 pre (35 :: rest) h]
    show parseSegs (List.drop 1 _) = parseSegs (List.drop 1 (splitOnElem 35 (35 :: rest)))
    unfold splitOnElem
    rw [if_pos rfl]
    rfl

theorem create_png_discards_before_hash_witness :
    parsePixelStream (asciiBytes "xyz") = .ok []
  ∧ parsePixelStream (asciiBytes "xyz" ++ 35 :: asciiBytes "ff0000")
      = parsePixelStream (35 :: asciiBytes "ff0000") :=
  create_png_discards_before_hash (asciiBytes "xyz") (asciiBytes "ff0000") (by decide)

/-- C2: for a pixel stream whose `#`-delimited tokens (after the discarded
leading element) are all valid 6- or 8-hex-digit runs — the two lengths may
be mixed — the parse succeeds with exactly 4 bytes per token: each token's
2-character groups parsed as hex bytes in order (R, G, B, [A]), a 6-digit
token getting a 4th byte of 255 and an 8-digit token its parsed alpha. -/
theorem create_png_valid_tokens (data : List Nat)
    (hval : ∀ s ∈ (splitOnElem 35 data).drop 1,
      (s.length = 6 ∨ s.length = 8) ∧ s.all isHexDigitByte = true) :
    parsePixelStream data = .ok (((splitOnElem 35 data).drop 1).flatMap pixelOfToken)
  ∧ (((splitOnElem 35 data).drop 1).flatMap pixelOfToken).length
      = 4 * ((splitOnElem 35 data).drop 1).length
  ∧ (∀ a b c d e f : Nat, pixelOfToken [a, b, c, d, e, f]
      = [hexPairVal a b, hexPairVal c d, hexPairVal e f, 255])
  ∧ (∀ a b c d e f g h' : Nat, pixelOfToken [a, b, c, d, e, f, g, h']
      = [hexPairVal a b, hexPairVal c d, hexPairVal e f, hexPairVal g h']) := by
  refine ⟨parseSegs_ok _ hval, flatMap_pixelOfToken_length _ (fun s hs => (hval s hs).1), ?_, ?_⟩
  · intro a b c d e f
    simp [pixelOfToken, pairVals]
  · intro a b c d e f g h'
    simp [pixelOfToken, pairVals]

theorem create_png_valid_tokens_witness :
    parsePixelStream (asciiBytes "#ff0000#00ff0080") = .ok [255, 0, 0, 255, 0, 255, 0, 128] := by
  rw [(create_png_valid_tokens (asciiBytes "#ff0000#00ff0080") (by decide)).1]
  decide

/-- C3 counterexample: the stream `#+f0000` has a single segment that
contains the character `+`, which is not a hex digit, yet the whole parse
succeeds and produces a pixel buffer — `u8::from_str_radix` accepts a
leading `+` sign, so the claim "any non-hex character fails the parse" is
false as stated. -/
theorem create_png_nonhex_claim_false :
    (∃ s ∈ (splitOnElem 35 (asciiBytes "#+f0000")).drop 1, s.all isHexDigitByte = false)
  ∧ parsePixelStream (asciiBytes "#+f0000") = .ok [15, 0, 0, 255] := by
  decide

/-- C3 (amended): any segment of length other than 6 or 8 fails the parse
with `InvalidPngData`; any segment whose 2-byte groups are rejected (not
valid UTF-8, or not accepted by `u8::from_str_radix` — two hex digits, or
a leading `+` followed by one hex digit) fails it with a UTF-8 or
hex-parse error; whenever any segment fails, the whole parse fails and no
partial pixel buffer is produced. -/
theorem create_png_invalid_segment_fails (data : List Nat)
    (h : ∃ s ∈ (splitOnElem 35 data).drop 1, isErr (parseSeg s) = true) :
    isErr (parsePixelStream data) = true
  ∧ (∀ s : List Nat, s.length ≠ 6 ∧ s.length ≠ 8 → parseSeg s = .error .invalidPngData)
  ∧ (∀ (s : List Nat) (e : Error), parseSeg s = .error e →
      e = .invalidPngData ∨ e = .utf8Error ∨ e = .parseIntError) :=
  ⟨parseSegs_err _ h, parseSeg_badlen, parseSeg_err_classify⟩

theorem create_png_invalid_segment_fails_witness :
    isErr (parsePixelStream (asciiBytes "#gg0000")) = true :=
  (create_png_invalid_segment_fails (asciiBytes "#gg0000") (by decide)).1

/-- `str::parse::<u32>()` (`u32::from_str_radix(_, 10)`): an optional
leading `+` sign, then at least one ASCII decimal digit, and the value
must fit in a `u32`; a leading `-` is rejected for an unsigned type. -/
def parseU32 (s : List Char) : Option Nat :=
  let ds := match s with
    | c :: rest => if c = '+' then rest else s
    | [] => s
  if ds.isEmpty then none
  else if ds.all Char.isDigit then
    let v := ds.foldl (fun acc c => acc * 10 + (c.toNat - 48)) 0
    if v < 4294967296 then some v else none
  else none

/-- Filesystem effects `create_png` can perform before encoding. -/
inductive FsEff
  | createDirAll
  | createFile
deriving DecidableEq, Repr

/-- Modelled from the spec: the external PNG encoder "surfaces the
underlying encoder's error on inconsistent geometry/color parameters
(e.g., pixel buffer size mismatch)" (§4.1). For the 8-bit RGBA images
produced by `create_png`, `write_image_data` succeeds exactly when the
buffer holds `width * height * 4` bytes. -/
def writeImageDataRgba8 (w h : Nat) (pixels : List Nat) : Except Error Unit :=
  if pixels.length = w * h * 4 then .ok () else .error .encodeError

/-- `create_png(path, width, height, data)`: width and height are parsed
first, then the pixel stream; only then does the function touch the
filesystem (`create_dir_all` when the parent is not already a directory,
then `File::create`), and finally the buffer is handed to the encoder
with no size pre-check. The result records the filesystem effects
performed and the returned error, if any; `parentIsDir` abstracts
`Path::new(path).parent()` being absent or an existing directory. -/
def create_png (parentIsDir : Bool) (width height : List Char) (data : List Nat) :
    List FsEff × Option Error :=
  match parseU32 width with
  | none => ([], some .parseIntError)
  | some w =>
    match parseU32 height with
    | none => ([], some .parseIntError)
    | some h =>
      match parsePixelStream data with
      | .error e => ([], some e)
      | .ok buf =>
        let effs := (if parentIsDir then [] else [FsEff.createDirAll]) ++ [FsEff.createFile]
        match writeImageDataRgba8 w h buf with
        | .error e => (effs, some e)
        | .ok _ => (effs, none)

/-- C7: `create_png` never pre-validates the pixel-buffer length against
`width * height * 4`: when the inputs parse but the byte count mismatches
the dimensions, the result is the encoder's error (not a pre-validated
`FormatError`), raised only after the output file has been created. -/
theorem create_png_no_size_prevalidation (pd : Bool) (width height : List Char)
    (data : List Nat) (w h : Nat) (buf : List Nat)
    (hw : parseU32 width = some w) (hh : parseU32 height = some h)
    (hbuf : parsePixelStream data = .ok buf) (hmis : buf.length ≠ w * h * 4) :
    (create_png pd width height data).2 = some .encodeError
  ∧ FsEff.createFile ∈ (create_png pd width height data).1 := by
  have hwr : writeImageDataRgba8 w h buf = Except.error Error.encodeError := by
    unfold writeImageDataRgba8
    exact if_neg hmis
  simp only [create_png, hw, hh, hbuf, hwr]
  cases pd <;> simp

theorem create_png_no_size_prevalidation_witness :
    (create_png true ("2").data ("2").data (asciiBytes "#ff0000")).2 = some .encodeError :=
  (create_png_no_size_prevalidation true ("2").data ("2").data (asciiBytes "#ff0000")
    2 2 [255, 0, 0, 255] (by decide) (by decide) (by decide) (by decide)).1

/-- C10: `create_png` parses and validates both dimensions and the pixel
stream before touching the filesystem: on a parse or format error it
performs no filesystem effect (no directory creation, no file
creation/truncation) and returns the error. -/
theorem create_png_fs_untouched_on_invalid (pd : Bool) (width height : List Char)
    (data : List Nat)
    (h : parseU32 width = none ∨ parseU32 height = none
        ∨ isErr (parsePixelStream data) = true) :
    (create_png pd width height data).1 = []
  ∧ (create_png pd width height data).2.isSome = true := by
  unfold create_png
  rcases h with h | h | h
  · rw [h]
    exact ⟨rfl, rfl⟩
  · cases hw : parseU32 width with
    | none => exact ⟨rfl, rfl⟩
    | some w =>
      rw [h]
      exact ⟨rfl, rfl⟩
  · cases hw : parseU32 width with
    | none => exact ⟨rfl, rfl⟩
    | some w =>
      cases hh : parseU32 height with
      | none => exact ⟨rfl, rfl⟩
      | some hgt =>
        cases hs : parsePixelStream data with
        | error e => exact ⟨rfl, rfl⟩
        | ok buf => rw [hs] at h; simp [isErr] at h

theorem create_png_fs_untouched_on_invalid_witness :
    (create_png false ("x").data ("2").data (asciiBytes "#ff0000")).1 = []
  ∧ (create_png false ("x").data ("2").data (asciiBytes "#ff0000")).2.isSome = true :=
  create_png_fs_untouched_on_invalid false ("x").data ("2").data (asciiBytes "#ff0000")
    (Or.inl (by decide))

/-- The tuple the PNG adapter round-trips (spec §3 DecodedImage):
dimensions, color type and bit depth from `OutputInfo`, palette,
transparency chunk and compressed text chunks from the reader's `Info`,
and the raw pixel buffer. Color type and bit depth are abstract codes. -/
structure DecodedImage where
  width : Nat
  height : Nat
  colorType : Nat
  bitDepth : Nat
  palette : Option (List Nat)
  trns : Option (List Nat)
  textChunks : List (List Nat)
  pixels : List Nat
deriving DecidableEq, Repr

/-- Modelled from the spec: the external PNG engine's decode/encode pair
round-trips the tuple (§4.1) and encoding is a deterministic function of
it, so a stored valid PNG file is represented by the `DecodedImage` it
decodes to, and `read_png` returns it unchanged. -/
def read_png (file : DecodedImage) : DecodedImage := file

/-- `write_png(path, reader, info, image, strip)`: the encoder is created
with `info`'s width and height, color type and bit depth are copied with
`set_color`/`set_depth`, the palette and `tRNS` chunk are written back
when present, the compressed text chunks are re-emitted only when `strip`
is false, and the pixel buffer is written as the image data. The value is
the tuple the written file decodes to. -/
def write_png (img : DecodedImage) (strip : Bool) : DecodedImage :=
  { width := img.width
    height := img.height
    colorType := img.colorType
    bitDepth := img.bitDepth
    palette := img.palette
    trns := img.trns
    textChunks := if strip then [] else img.textChunks
    pixels := img.pixels }

/-- `strip_metadata(path)`: read the PNG, write it back with
`strip = true`. -/
def strip_metadata (file : DecodedImage) : DecodedImage :=
  write_png (read_png file) true

/-- C4: after `strip_metadata` succeeds, decoding the written file yields
an image with no compressed text chunks but with width, height, color
type, bit depth and pixel bytes identical to the pre-strip decode, and
with the original palette and transparency chunk written back. -/
theorem strip_metadata_preserves (f : DecodedImage) :
    (strip_metadata f).textChunks = []
  ∧ (strip_metadata f).width = f.width
  ∧ (strip_metadata f).height = f.height
  ∧ (strip_metadata f).colorType = f.colorType
  ∧ (strip_metadata f).bitDepth = f.bitDepth
  ∧ (strip_metadata f).pixels = f.pixels
  ∧ (strip_metadata f).palette = f.palette
  ∧ (strip_metadata f).trns = f.trns := by
  unfold strip_metadata write_png read_png
  exact ⟨rfl, rfl, rfl, rfl, rfl, rfl, rfl, rfl⟩

/-- C6: stripping metadata is idempotent at the file level: a second
`strip_metadata` decodes a file that already has no text chunks and
re-encodes the identical tuple, so (the encoder being deterministic) the
file after the second strip is byte-identical to the file after the
first. -/
theorem strip_metadata_idempotent (f : DecodedImage) :
    strip_metadata (strip_metadata f) = strip_metadata f := by
  unfold strip_metadata write_png read_png
  rfl

/-- The resampling filters of `image::imageops::FilterType` matched by
`dmi_resize_png`. -/
inductive FilterType
  | catmullRom
  | gaussian
  | lanczos3
  | nearest
  | triangle
deriving DecidableEq, Repr

/-- The filter-name match of `byond_fn! dmi_resize_png`: the five
recognized names map to their filters and every other string falls
through to `Nearest`. -/
def filterOfName (s : List Char) : FilterType :=
  if s = ("catmull").data then .catmullRom
  else if s = ("gaussian").data then .gaussian
  else if s = ("lanczos3").data then .lanczos3
  else if s = ("nearest").data then .nearest
  else if s = ("triangle").data then .triangle
  else .nearest

/-- The in-memory image handled by the generic `image` crate path of the
resizer (not the chunk-preserving adapter). -/
structure RImage where
  width : Nat
  height : Nat
  pixels : List Nat
deriving DecidableEq, Repr

/-- Modelled from the spec: the external image engine's
`resize(width, height, filter)` applies the selected resampling filter
"to produce an image of the requested dimensions" (§4.4); the resampled
pixel content is supplied by the engine, kept abstract as the `resample`
parameter. -/
def imageResize (resample : RImage → Nat → Nat → FilterType → List Nat)
    (img : RImage) (w h : Nat) (f : FilterType) : RImage :=
  { width := w, height := h, pixels := resample img w h f }

/-- `resize_png(path, width, height, resizetype)`: parse both dimensions
as `u32`, open the image, resize it with the given filter and save the
result back as a PNG. The value is the image the overwritten file holds. -/
def resize_png (resample : RImage → Nat → Nat → FilterType → List Nat)
    (img : RImage) (width height : List Char) (resizetype : FilterType) :
    Except Error RImage :=
  match parseU32 width with
  | none => .error .parseIntError
  | some w =>
    match parseU32 height with
    | none => .error .parseIntError
    | some h => .ok (imageResize resample img w h resizetype)

/-- `byond_fn! dmi_resize_png`: map the filter name through the match,
then call `resize_png`. -/
def dmi_resize_png (resample : RImage → Nat → Nat → FilterType → List Nat)
    (img : RImage) (width height name : List Char) : Except Error RImage :=
  resize_png resample img width height (filterOfName name)

/-- C5: whenever width and height parse as non-negative integers,
`resize_png` writes back an image of exactly the requested dimensions
(for any engine resampler), and any filter name other than `catmull`,
`gaussian`, `lanczos3`, `nearest`, `triangle` makes `dmi_resize_png`
behave identically to `nearest` rather than fail. -/
theorem resize_png_dims_and_fallback
    (resample : RImage → Nat → Nat → FilterType → List Nat) (img : RImage)
    (width height name : List Char) (w h : Nat)
    (hw : parseU32 width = some w) (hh : parseU32 height = some h) :
    dmi_resize_png resample img width height name
      = .ok (imageResize resample img w h (filterOfName name))
  ∧ (∀ out : RImage, dmi_resize_png resample img width height name = .ok out →
      out.width = w ∧ out.height = h)
  ∧ (name ∉ [("catmull").data, ("gaussian").data, ("lanczos3").data,
        ("nearest").data, ("triangle").data] →
      dmi_resize_png resample img width height name
        = dmi_resize_png resample img width height ("nearest").data) := by
  have hrun : dmi_resize_png resample img width height name
      = .ok (imageResize resample img w h (filterOfName name)) := by
    unfold dmi_resize_png resize_png
    rw [hw, hh]
  refine ⟨hrun, ?_, ?_⟩
  · intro out hout
    rw [hrun] at hout
    simp only [Except.ok.injEq] at hout
    rw [← hout]
    exact ⟨rfl, rfl⟩
  · intro hname
    simp only [List.mem_cons, List.mem_singleton] at hname
    push_neg at hname
    have : filterOfName name = FilterType.nearest := by
      unfold filterOfName
      rw [if_neg hname.1, if_neg hname.2.1, if_neg hname.2.2.1, if_neg hname.2.2.2.1,
        if_neg hname.2.2.2.2.1]
    unfold dmi_resize_png
    rw [this]
    have : filterOfName ("nearest").data = FilterType.nearest := by decide
    rw [this]

theorem resize_png_dims_and_fallback_witness :
    dmi_resize_png (fun _ _ _ _ => []) ⟨1, 1, [0, 0, 0, 0]⟩
        ("3").data ("4").data ("bogus").data
      = dmi_resize_png (fun _ _ _ _ => []) ⟨1, 1, [0, 0, 0, 0]⟩
        ("3").data ("4").data ("nearest").data :=
  (resize_png_dims_and_fallback (fun _ _ _ _ => []) ⟨1, 1, [0, 0, 0, 0]⟩
    ("3").data ("4").data ("bogus").data 3 4 (by decide) (by decide)).2.2 (by decide)

/-- The Unicode `White_Space` characters, as tested by Rust's
`char::is_whitespace` (used by `str::trim`). -/
def rustIsWhitespace (c : Char) : Bool :=
  let n := c.toNat
  n = 0x20 ∨ (0x09 ≤ n ∧ n ≤ 0x0D) ∨ n = 0x85 ∨ n = 0xA0 ∨ n = 0x1680
    ∨ (0x2000 ≤ n ∧ n ≤ 0x200A) ∨ n = 0x2028 ∨ n = 0x2029 ∨ n = 0x202F
    ∨ n = 0x205F ∨ n = 0x3000

/-- `str::trim()`: remove leading and trailing whitespace. -/
def rustTrim (s : List Char) : List Char :=
  ((s.dropWhile rustIsWhitespace).reverse.dropWhile rustIsWhitespace).reverse

/-- Remove one trailing carriage return, as `str::lines` does for lines
terminated by `\r\n`. -/
def stripCr (l : List Char) : List Char :=
  match l.getLast? with
  | some c => if c = '\r' then l.dropLast else l
  | none => l

/-- `str::lines()`: split at `\n`; every piece terminated by a `\n` has
one final `\r` removed (a `\r` not followed by `\n` is not a line break
and stays); the final piece is kept as-is when non-empty and yields no
line when empty (empty input, or input ending in `\n`). -/
def rustLines (s : List Char) : List (List Char) :=
  let ps := splitOnElem '\n' s
  (ps.dropLast.map stripCr)
    ++ (match ps.getLast? with
        | some [] => []
        | some l => [l]
        | none => [])

/-- `str::contains(needle)`: substring containment. -/
def containsSub (needle : List Char) : List Char → Bool
  | [] => needle.isEmpty
  | c :: cs => needle.isPrefixOf (c :: cs) || containsSub needle cs

/-- `str::strip_prefix(p)`: `Some` of the remainder when `p` is a
prefix. -/
def stripPref (p s : List Char) : Option (List Char) :=
  if p.isPrefixOf s then some (s.drop p.length) else none

/-- `str::strip_suffix('"')`: `Some` of the text before a final quote. -/
def stripSuffQuote (s : List Char) : Option (List Char) :=
  match s.getLast? with
  | some c => if c = '"' then some s.dropLast else none
  | none => none

/-- The literal prefix `state = "` matched by `read_states`. -/
def statePre : List Char := ("state = \"").data

/-- The sentinel `# END DMI` that stops the line scan. -/
def dmiSentinel : List Char := ("# END DMI").data

/-- One line of `read_states`' `filter_map`:
`line.trim().strip_prefix("state = \"").and_then(|l| l.strip_suffix('"'))`. -/
def stateOfLine (line : List Char) : Option (List Char) :=
  (stripPref statePre (rustTrim line)).bind stripSuffQuote

/-- The per-chunk scan of `read_states`: lines in file order, taken while
they do not contain the sentinel, each remaining line put through
`stateOfLine`. -/
def chunkStates (text : List Char) : List (List Char) :=
  ((rustLines text).takeWhile (fun line => !containsSub dmiSentinel line)).filterMap
    stateOfLine

/-- Lowercase hexadecimal digit, as used by serde_json's `\u00XX`
escapes. -/
def hexDigitChar (n : Nat) : Char :=
  if n < 10 then Char.ofNat (48 + n) else Char.ofNat (87 + n)

/-- serde_json's escaping of one character inside a JSON string: `"` and
`\` are escaped, the control characters BS HT LF FF CR get their short
escapes, the other control characters below `0x20` become `\u00XX`, and
everything else is emitted verbatim. -/
def jsonEscChar (c : Char) : List Char :=
  if c = '"' then ['\\', '"']
  else if c = '\\' then ['\\', '\\']
  else if c.toNat = 8 then ['\\', 'b']
  else if c.toNat = 9 then ['\\', 't']
  else if c.toNat = 10 then ['\\', 'n']
  else if c.toNat = 12 then ['\\', 'f']
  else if c.toNat = 13 then ['\\', 'r']
  else if c.toNat < 32 then
    ['\\', 'u', '0', '0', hexDigitChar (c.toNat / 16), hexDigitChar (c.toNat % 16)]
  else [c]

/-- serde_json serialization of one string. -/
def jsonString (s : List Char) : List Char :=
  '"' :: (s.flatMap jsonEscChar ++ ['"'])

/-- serde_json serialization of a `Vec<String>`, as produced by
`serde_json::to_string(&states)`. -/
def jsonArrayString (xs : List (List Char)) : List Char :=
  '[' :: (List.intercalate ((",").data) (xs.map jsonString) ++ [']'])

/-- `read_states(path)` past the external decode (the claim assumes every
compressed text chunk decompresses successfully): the decompressed chunk
texts are given in storage order, each is scanned by `chunkStates`, the
collected names are appended across chunks into one list, and the list is
serialized as a JSON array of strings. -/
def read_states (chunks : List (List Char)) : List Char :=
  jsonArrayString (chunks.flatMap chunkStates)

/-- The claim's reading of one line: the trimmed line must start with the
9-character prefix `state = "` and the remainder after the prefix must
end with `"`; the name is the verbatim substring between them, possibly
empty. -/
def specStateOfLine (line : List Char) : Option (List Char) :=
  if statePre.isPrefixOf (rustTrim line)
      ∧ ((rustTrim line).drop statePre.length).getLast? = some '"'
  then some (((rustTrim line).drop statePre.length).dropLast)
  else none

/-- The claim's reading of one chunk: scan exactly the lines strictly
before the first line containing the sentinel. -/
def specChunkStates (text : List Char) : List (List Char) :=
  ((rustLines text).take
      ((rustLines text).findIdx (fun line => containsSub dmiSentinel line))).filterMap
    specStateOfLine

theorem takeWhile_eq_take_findIdx {α : Type} (p : α → Bool) (l : List α) :
    l.takeWhile p = l.take (l.findIdx (fun a => !p a)) := by
  induction l with
  | nil => rfl
  | cons a t ih =>
    by_cases h : p a
    · simp [List.takeWhile_cons, h, List.findIdx_cons, ih]
    · simp [List.takeWhile_cons, h, List.findIdx_cons]

theorem stateOfLine_eq_spec (line : List Char) :
    stateOfLine line = specStateOfLine line := by
  unfold stateOfLine specStateOfLine stripPref
  by_cases hp : statePre.isPrefixOf (rustTrim line)
  · rw [if_pos hp]
    show stripSuffQuote _ = _
    unfold stripSuffQuote
    cases hl : ((rustTrim line).drop statePre.length).getLast? with
    | none => simp [hl, hp]
    | some c =>
      by_cases hc : c = '"'
      · subst hc
        simp [hl, hp]
      · dsimp only
        rw [if_neg hc, if_neg]
        intro hcontra
        injection hcontra.2 with hcc2
        exact hc hcc2
  · rw [if_neg hp, if_neg]
    · rfl
    · intro hcontra
      exact hp hcontra.1

theorem chunkStates_eq_spec (text : List Char) :
    chunkStates text = specChunkStates text := by
  unfold chunkStates specChunkStates
  rw [takeWhile_eq_take_findIdx]
  have hfix : ((rustLines text).findIdx fun a => !!containsSub dmiSentinel a)
      = (rustLines text).findIdx fun line => containsSub dmiSentinel line := by
    congr 1
    funext a
    simp
  rw [hfix]
  have : stateOfLine = specStateOfLine := funext stateOfLine_eq_spec
  rw [this]

/-- C1: `read_states` processes the decompressed text chunks in storage
order; within each chunk it scans lines in file order only up to (and
excluding) the first line containing `# END DMI`; every scanned line
whose trimmed form starts with `state = "` and whose remainder ends with
`"` contributes the verbatim substring between them (no unescaping,
duplicates kept), and the whole ordered list is returned as a JSON array
of strings. In particular, the sole chunk
`state = "idle"\nstate = "walk"\n# END DMI\nstate = "ignored"\n` yields
`["idle","walk"]`, and no text chunks yield `[]`. -/
theorem read_states_correct :
    (∀ chunks : List (List Char),
      read_states chunks = jsonArrayString (chunks.flatMap specChunkStates))
  ∧ read_states
      [("state = \"idle\"\nstate = \"walk\"\n# END DMI\nstate = \"ignored\"\n").data]
      = ("[\"idle\",\"walk\"]").data
  ∧ read_states [] = ("[]").data := by
  refine ⟨?_, by decide, by decide⟩
  intro chunks
  unfold read_states
  have : chunkStates = specChunkStates := funext chunkStates_eq_spec
  rw [this]

/-- C9: `read_states` accepts empty state names — a line that trims to
`state = ""` contributes an empty-string entry (the prefix/suffix match
does not require a non-empty name) — while a line that is exactly the
9-character prefix `state = "` alone contributes nothing. -/
theorem read_states_empty_name :
    stateOfLine (("state = \"\"").data) = some []
  ∧ stateOfLine (("state = \"").data) = none
  ∧ read_states [("state = \"\"").data] = ("[\"\"]").data := by
  refine ⟨by decide, by decide, by decide⟩
